import Mathlib

/-!
Verification development for the feature-preprocessing configuration and
adapt/apply lifecycle of the `keras-tensorflow` notebook
(`Pré_processamento_de_atributos_com_Keras_FeatureSpace.ipynb`).

The notebook declares a `FeatureSpace` schema (integer/string categorical
columns, normalized floats, a discretized float, and two hashed crosses),
adapts it on the unlabeled training stream, and applies it to rows both via
a mapped dataset (training path) and via an end-to-end inference model
(inference path).  The `FeatureSpace` implementation itself lives in the
external Keras library, not in this repository, so its adapt/apply semantics
are modelled here from the specification's data model and component design
(schema declaration, adaptation statistics, encoding and crossing, the
state machine, and the error-handling design).  Numeric values are modelled
as rationals so that the specification's concrete arithmetic is exact.
-/

/-- Equality of fallible results is decidable when both components are. -/
instance {ε α : Type _} [DecidableEq ε] [DecidableEq α] : DecidableEq (Except ε α) :=
  fun a b =>
    match a, b with
    | .ok x, .ok y =>
        if h : x = y then .isTrue (by simp [h]) else .isFalse (by simp [h])
    | .error e, .error f =>
        if h : e = f then .isTrue (by simp [h]) else .isFalse (by simp [h])
    | .ok _, .error _ => .isFalse (by simp)
    | .error _, .ok _ => .isFalse (by simp)

namespace FeatureSpaceModel

/-- Modelled from the spec: a raw value of one input column is an integer,
a float (modelled as a rational), or a string. -/
inductive Value where
  | intV : Int → Value
  | strV : String → Value
  | floatV : ℚ → Value
deriving DecidableEq, Repr

/-- A raw row: a mapping from column name to raw value, modelled as an
association list. -/
def Row : Type := List (String × Value)

/-- Look a column name up in a row. -/
def rowLookup (row : Row) (name : String) : Option Value :=
  match row with
  | [] => none
  | (k, v) :: rest => if k = name then some v else rowLookup rest name

/-- Remove every binding of a column name from a row. -/
def rowRemove (name : String) (row : Row) : Row :=
  match row with
  | [] => []
  | (k, v) :: rest =>
      if k = name then rowRemove name rest else (k, v) :: rowRemove name rest

/-- Modelled from the spec: a column policy is one of the four declared
preprocessing kinds, carrying its policy-specific parameters
(out-of-vocabulary slot count for categorical columns, bin count for
discretized columns). -/
inductive ColumnPolicy where
  | integer_categorical (num_oov_indices : Nat)
  | string_categorical (num_oov_indices : Nat)
  | float_normalized
  | float_discretized (num_bins : Nat)
deriving DecidableEq, Repr

/-- Modelled from the spec: a cross specification names 2+ columns and a
hashing dimension. -/
structure CrossSpec where
  feature_names : List String
  crossing_dim : Nat
deriving DecidableEq, Repr

/-- Modelled from the spec: the declared configuration is the column-policy
mapping plus the list of cross specifications (output mode is the single
concatenated vector, the only mode the notebook uses). -/
structure FeatureSpaceConfig where
  features : List (String × ColumnPolicy)
  crosses : List CrossSpec
deriving DecidableEq, Repr

/-- Modelled from the spec: per-column fitted state — an ordered vocabulary
plus oov slot count for categorical columns, (mean, variance) for
normalized columns, sorted bin boundaries for discretized columns. -/
inductive FittedColumn where
  | categorical (vocab : List Value) (num_oov_indices : Nat)
  | normalized (mean variance : ℚ)
  | discretized (boundaries : List ℚ)
deriving DecidableEq, Repr

/-- Modelled from the spec: the fitted configuration — fitted per-column
state in declaration order, plus the cross specifications. -/
structure FittedSpace where
  columns : List (String × FittedColumn)
  crosses : List CrossSpec
deriving DecidableEq, Repr

/-- Modelled from the spec's error-handling design: adaptation errors. -/
inductive AdaptError where
  | emptySource
  | badValueType (column : String)
  | missingColumn (column : String)
  | schemaError
  | wrongState
deriving DecidableEq, Repr

/-- Modelled from the spec's error-handling design: application errors.
`unknownCategory` is the distinct error for an unseen categorical value
with zero oov slots; `missingField` for a row missing a declared column;
`notAdapted` is the configuration-state error for applying before
adaptation. -/
inductive ApplyError where
  | unknownCategory (column : String) (v : Value)
  | missingField (column : String)
  | badType (column : String)
  | notAdapted
deriving DecidableEq, Repr

/-- Numeric view of a raw value (integers coerce to rationals); strings
have none. -/
def numValue : Value → Option ℚ
  | .intV i => some (i : ℚ)
  | .strV _ => none
  | .floatV q => some q

/-- A total comparison on raw values used to order categorical
vocabularies: integers by value, strings lexicographically, mixed kinds by
constructor rank. -/
def valueLE : Value → Value → Bool
  | .intV a, .intV b => decide (a ≤ b)
  | .intV _, _ => true
  | .strV _, .intV _ => false
  | .strV a, .strV b => decide (a ≤ b)
  | .strV _, .floatV _ => true
  | .floatV _, .intV _ => false
  | .floatV _, .strV _ => false
  | .floatV a, .floatV b => decide (a ≤ b)

/-- Insert a value into a list sorted by `valueLE`. -/
def insertVal (v : Value) : List Value → List Value
  | [] => [v]
  | w :: ws => if valueLE v w then v :: w :: ws else w :: insertVal v ws

/-- The distinct values of a list, sorted ascending by `valueLE`.
Modelled from the spec: the spec leaves vocabulary order open (first-seen
or frequency-ranked), but its concrete scenario fixes the vocabulary of
`{1, 0}` as the ordered `{0, 1}`, so the model sorts the distinct observed
values ascending. -/
def sortedDedup (vals : List Value) : List Value :=
  (vals.foldl (fun acc v => if v ∈ acc then acc else acc ++ [v]) []).foldr insertVal []

/-- Modelled from the spec: the small additive constant in the
normalization rule `(value - mean) / sqrt(variance + epsilon)`.  The
spec's concrete scenario computes `(60 - 50) / 10 = 1.0` exactly, so the
model takes it to be `0`. -/
def epsilon : ℚ := 0

/-- Exact square root on rationals whose numerator and denominator are
perfect squares (the only case the model's arithmetic needs). -/
def sqrtQ (q : ℚ) : ℚ := (Nat.sqrt q.num.toNat : ℚ) / (Nat.sqrt q.den : ℚ)

/-- Least element of a list of rationals (0 for the empty list). -/
def minQ (qs : List ℚ) : ℚ := qs.foldl min (qs.headD 0)

/-- Greatest element of a list of rationals (0 for the empty list). -/
def maxQ (qs : List ℚ) : ℚ := qs.foldl max (qs.headD 0)

/-- Modelled from the spec: fit one column's statistics from its observed
values.  Categorical policies build the vocabulary of distinct observed
values (failing on a value of the wrong kind); normalized policies compute
mean and (population) variance in one pass; discretized policies compute
`num_bins - 1` equal-width boundary cut points between the observed
minimum and maximum (the spec names equal-width as the safer default). -/
def adaptColumn (name : String) : ColumnPolicy → List Value → Except AdaptError FittedColumn
  | .integer_categorical oov, vals =>
      if vals.all (fun v => match v with | .intV _ => true | _ => false) then
        .ok (.categorical (sortedDedup vals) oov)
      else .error (.badValueType name)
  | .string_categorical oov, vals =>
      if vals.all (fun v => match v with | .strV _ => true | _ => false) then
        .ok (.categorical (sortedDedup vals) oov)
      else .error (.badValueType name)
  | .float_normalized, vals =>
      match vals.mapM numValue with
      | some qs =>
          let n : ℚ := (qs.length : ℚ)
          let mean := qs.sum / n
          let variance := (qs.map (fun q => (q - mean) * (q - mean))).sum / n
          .ok (.normalized mean variance)
      | none => .error (.badValueType name)
  | .float_discretized k, vals =>
      match vals.mapM numValue with
      | some qs =>
          let m := minQ qs
          let M := maxQ qs
          .ok (.discretized ((List.range (k - 1)).map
            (fun i : Nat => m + ((i : ℚ) + 1) * (M - m) / (k : ℚ))))
      | none => .error (.badValueType name)

/-- Modelled from the spec's schema validation: every column a cross
references must be declared, and every crossing dimension must be
positive. -/
def validateConfig (cfg : FeatureSpaceConfig) : Bool :=
  cfg.crosses.all (fun cs =>
    decide (0 < cs.crossing_dim) &&
    cs.feature_names.all (fun n => cfg.features.any (fun fp => fp.1 = n)))

/-- The values one column takes across the row stream (failing if a row
misses the column). -/
def columnValues (rows : List Row) (name : String) : Except AdaptError (List Value) :=
  rows.mapM (fun r =>
    match rowLookup r name with
    | some v => Except.ok v
    | none => Except.error (.missingColumn name))

/-- Modelled from the spec: adaptation — one full pass over the unlabeled
row stream, fitting every declared column's statistics.  It validates the
schema first, fails on an empty row source, and retains no partial
statistics on failure. -/
def adapt (cfg : FeatureSpaceConfig) (rows : List Row) : Except AdaptError FittedSpace :=
  if !validateConfig cfg then .error .schemaError
  else if rows.isEmpty then .error .emptySource
  else do
    let cols ← cfg.features.mapM (fun np => do
      let vals ← columnValues rows np.1
      let fc ← adaptColumn np.1 np.2 vals
      return (np.1, fc))
    return { columns := cols, crosses := cfg.crosses }

/-- A one-hot vector: length `len`, value 1 at position `idx`, 0
elsewhere. -/
def oneHot (len idx : Nat) : List ℚ :=
  (List.range len).map (fun j => if j = idx then 1 else 0)

/-- First index of a value in a vocabulary. -/
def idxOf (v : Value) : List Value → Option Nat
  | [] => none
  | w :: ws => if w = v then some 0 else (idxOf v ws).map (· + 1)

/-- A deterministic hash of one raw value into the naturals. -/
def hashValue : Value → Nat
  | .intV i => 2 * i.natAbs + (if i < 0 then 1 else 0)
  | .strV s => s.foldl (fun h c => h * 31 + c.toNat) 7
  | .floatV q => 2 * q.num.natAbs + q.den

/-- Modelled from the spec: combine the constituent columns' values of a
cross into a single hash input. -/
def combineHash (vals : List Value) : Nat :=
  vals.foldl (fun h v => h * 1000003 + hashValue v) 0

/-- Modelled from the spec: encode a single raw value against one fitted
column.  A categorical value found in the vocabulary one-hot encodes at
its index after the oov slots; an unseen value fails with the distinct
`unknownCategory` error when there is no oov slot, else maps to an oov
slot.  A normalized value encodes as `(value - mean) / sqrt(variance +
epsilon)`.  A discretized value one-hot encodes over bin index, clamping
out-of-range values to the edge bins. -/
def encodeValue (name : String) : FittedColumn → Value → Except ApplyError (List ℚ)
  | .categorical vocab oov, v =>
      match idxOf v vocab with
      | some i => .ok (oneHot (vocab.length + oov) (oov + i))
      | none =>
          if oov = 0 then .error (.unknownCategory name v)
          else .ok (oneHot (vocab.length + oov) (hashValue v % oov))
  | .normalized mean variance, v =>
      match numValue v with
      | some q => .ok [(q - mean) / sqrtQ (variance + epsilon)]
      | none => .error (.badType name)
  | .discretized bs, v =>
      match numValue v with
      | some q => .ok (oneHot (bs.length + 1) (bs.countP (fun b => decide (b ≤ q))))
      | none => .error (.badType name)

/-- The bin a numeric value falls into: the number of fitted boundaries at
or below it, so values below every boundary fall in bin 0 and values above
every boundary fall in the last bin. -/
def binIndex (bs : List ℚ) (q : ℚ) : Nat := bs.countP (fun b => decide (b ≤ q))

/-- Gather the raw values of the named columns from a row (failing with
`missingField` on a column the row does not bind). -/
def gatherValues (row : Row) : List String → Except ApplyError (List Value)
  | [] => .ok []
  | n :: ns =>
      match rowLookup row n with
      | none => .error (.missingField n)
      | some v => do
          let vs ← gatherValues row ns
          return (v :: vs)

/-- Modelled from the spec: encode one cross — hash the constituent
columns' values into `[0, crossing_dim)` and emit a one-hot vector of that
length. -/
def encodeCross (row : Row) (cs : CrossSpec) : Except ApplyError (List ℚ) := do
  let vals ← gatherValues row cs.feature_names
  return oneHot cs.crossing_dim (combineHash vals % cs.crossing_dim)

/-- Encode every fitted column of a row, in declaration order, and
concatenate (failing with `missingField` on a missing column). -/
def encodeColumns (row : Row) : List (String × FittedColumn) → Except ApplyError (List ℚ)
  | [] => .ok []
  | (name, fc) :: rest =>
      match rowLookup row name with
      | none => .error (.missingField name)
      | some v => do
          let e ← encodeValue name fc v
          let es ← encodeColumns row rest
          return (e ++ es)

/-- Encode every cross of a row and concatenate. -/
def encodeCrosses (row : Row) : List CrossSpec → Except ApplyError (List ℚ)
  | [] => .ok []
  | cs :: rest => do
      let e ← encodeCross row cs
      let es ← encodeCrosses row rest
      return (e ++ es)

/-- Modelled from the spec: application — transform one raw row into the
single concatenated feature vector: per-column encodings in declaration
order followed by the hashed cross encodings. -/
def applyRow (fs : FittedSpace) (row : Row) : Except ApplyError (List ℚ) := do
  let a ← encodeColumns row fs.columns
  let b ← encodeCrosses row fs.crosses
  return (a ++ b)

/-- The width of one fitted column's encoding. -/
def colWidth : FittedColumn → Nat
  | .categorical vocab oov => vocab.length + oov
  | .normalized _ _ => 1
  | .discretized bs => bs.length + 1

/-- The fixed output length of a fitted configuration: the sum of the
per-column widths plus the sum of the crossing dimensions. -/
def featureVectorLength (fs : FittedSpace) : Nat :=
  (fs.columns.map (fun nc => colWidth nc.2)).sum
    + (fs.crosses.map (fun cs => cs.crossing_dim)).sum

/-- Modelled from the spec: the feature space's lifecycle states —
Unconfigured, Configured (policies declared), Adapted (statistics
fitted). -/
inductive FSState where
  | Unconfigured
  | Configured (cfg : FeatureSpaceConfig)
  | Adapted (fs : FittedSpace)
deriving DecidableEq, Repr

/-- Modelled from the spec: declaring policies moves the lifecycle to
Configured. -/
def declareStep (cfg : FeatureSpaceConfig) : FSState := .Configured cfg

/-- Modelled from the spec: `adapt` consumes the full unlabeled training
stream from the Configured state and moves to Adapted; in any other state
it is rejected (adaptation is one-shot and not reversible). -/
def adaptStep (s : FSState) (rows : List Row) : Except AdaptError FSState :=
  match s with
  | .Configured cfg => (adapt cfg rows).map .Adapted
  | _ => .error .wrongState

/-- Modelled from the spec: `apply` encodes a row in the Adapted state and
fails with the configuration-state error in every other state. -/
def applyStep (s : FSState) (row : Row) : Except ApplyError (List ℚ) :=
  match s with
  | .Adapted fs => applyRow fs row
  | _ => .error .notAdapted

/-- `apply` as a state transformer: the result paired with the lifecycle
state after the call (the fitted statistics are read-only at application
time). -/
def applyMut (s : FSState) (row : Row) : Except ApplyError (List ℚ) × FSState :=
  (applyStep s row, s)

/-- Batched application with the lifecycle state threaded through the
rows: each row is encoded against the state left by the previous one. -/
def applyBatchMut (s : FSState) : List Row → List (Except ApplyError (List ℚ)) × FSState
  | [] => ([], s)
  | r :: rs =>
      let p := applyMut s r
      let q := applyBatchMut p.2 rs
      (p.1 :: q.1, q.2)

/-- The training-time path of the notebook: map the fitted feature space
over an already-batched labeled dataset, encoding each element's features
and carrying its label through (`train_ds.map (lambda x, y:
(feature_space(x), y))`). -/
def trainingPathEncode (fs : FittedSpace) (ds : List (Row × ℚ)) :
    List (Except ApplyError (List ℚ) × ℚ) :=
  ds.map (fun xy => (applyRow fs xy.1, xy.2))

/-- The inference-time path of the notebook: the end-to-end model takes
one raw dict of values and encodes it with the same fitted feature space
before the classifier consumes it. -/
def inferencePathEncode (fs : FittedSpace) (row : Row) : Except ApplyError (List ℚ) :=
  applyRow fs row

/-- The schema of the notebook's concrete scenario:
`{"sex": CategoricalInteger(oov=0), "age": NormalizedFloat}`. -/
def scenarioConfig : FeatureSpaceConfig :=
  { features := [("sex", .integer_categorical 0), ("age", .float_normalized)],
    crosses := [] }

/-- The adaptation rows of the concrete scenario:
`[{"sex": 1, "age": 60}, {"sex": 0, "age": 40}]`. -/
def scenarioRows : List Row :=
  [[("sex", .intV 1), ("age", .intV 60)], [("sex", .intV 0), ("age", .intV 40)]]

/-- The fitted state the concrete scenario expects: vocabulary `{0, 1}`
for `sex` with no oov slot, mean 50 and variance 100 for `age`. -/
def scenarioFitted : FittedSpace :=
  { columns := [("sex", .categorical [.intV 0, .intV 1] 0), ("age", .normalized 50 100)],
    crosses := [] }

/-- A small fitted configuration (one categorical column, one cross) used
to exercise the length invariant on a concrete input. -/
def witnessFitted : FittedSpace :=
  { columns := [("sex", .categorical [.intV 0, .intV 1] 0)],
    crosses := [{ feature_names := ["sex"], crossing_dim := 4 }] }

end FeatureSpaceModel

namespace SplitModel

/-- Modelled from the spec: the deterministic index selection behind
`dataframe.sample(frac=0.2, random_state=seed)` — a seed-determined
pseudo-shuffle of the `n` row indices (a rotation), of which the first `k`
are taken. -/
def sampleIndices (seed n k : Nat) : List Nat :=
  ((List.range n).rotate (seed % (n + 1))).take k

/-- The number of rows a 20% sample draws from `n` rows (rounded to the
nearest integer, as the notebook's 303-row frame yields 61). -/
def sampleSize (n : Nat) : Nat := (2 * n + 5) / 10

/-- Modelled from the spec: `val_dataframe = dataframe.sample(frac=0.2,
random_state=1337)` followed by `train_dataframe =
dataframe.drop(val_dataframe.index)` — the sampled rows and the remaining
rows, as (validation, training) index lists over the frame's rows. -/
def splitIndices (seed n : Nat) : List Nat × List Nat :=
  let valIdx := sampleIndices seed n (sampleSize n)
  (valIdx, (List.range n).filter (fun i => i ∉ valIdx))

/-- The rows of a frame at a list of indices. -/
def rowsAt (df : List α) (idxs : List Nat) : List α :=
  idxs.filterMap (fun i => df.get? i)

/-- The train/validation split of a dataframe: the validation sample and
the frame with the sampled indices dropped. -/
def trainValSplit (seed : Nat) (df : List α) : List α × List α :=
  let p := splitIndices seed df.length
  (rowsAt df p.2, rowsAt df p.1)

end SplitModel

namespace DatasetModel

open FeatureSpaceModel

/-- A store of dataframes: each frame is a list of rows, addressed by its
position.  It models the mutable dataframe objects the notebook's
`dataframe_to_dataset` touches. -/
structure Store where
  frames : List (List Row)

/-- `dataframe.copy()`: allocate a fresh frame holding the same rows and
return its address. -/
def copyFrame (s : Store) (i : Nat) : Store × Nat :=
  ({ frames := s.frames ++ [s.frames.getD i []] }, s.frames.length)

/-- `dataframe.pop("target")`: remove the labels column from the frame at
address `j`, in place, and return the removed column. -/
def popTarget (s : Store) (j : Nat) : Store × List (Option Value) :=
  let df := s.frames.getD j []
  ({ frames := s.frames.set j (df.map (rowRemove "target")) },
    df.map (fun r => rowLookup r "target"))

/-- `ds.shuffle(...)`: a seed-determined reordering of the dataset's
elements, modelled as a rotation. -/
def shuffleModel (seed : Nat) (l : List α) : List α :=
  l.rotate (seed % (l.length + 1))

/-- The notebook's `dataframe_to_dataset`: copy the frame, pop the
`"target"` column off the copy, zip features with labels and shuffle.
Returns the dataset together with the store after the call. -/
def dataframe_to_dataset (seed : Nat) (s : Store) (i : Nat) :
    Store × List (Row × Option Value) :=
  let c := copyFrame s i
  let p := popTarget c.1 c.2
  let feats := p.1.frames.getD c.2 []
  (p.1, shuffleModel seed (feats.zip p.2))

end DatasetModel

/-! ## Feature-space lemmas and claim theorems -/

namespace FeatureSpaceModel

/-- A one-hot vector has the length it was asked for. -/
lemma length_oneHot (len idx : Nat) : (oneHot len idx).length = len := by
  simp [oneHot]

/-- Counting the positions of `range len` equal to `idx`: one inside the
range, none outside. -/
lemma countP_range_eq (len idx : Nat) :
    (List.range len).countP (fun j => decide (j = idx)) = if idx < len then 1 else 0 := by
  induction len with
  | zero => simp
  | succ n ih =>
      rw [List.range_succ, List.countP_append, ih]
      by_cases h : idx < n
      · have : n ≠ idx := by omega
        simp [List.countP_cons, h, this, Nat.lt_succ_of_lt h]
      · by_cases h2 : n = idx
        · simp [List.countP_cons, h, h2, Nat.lt_succ_self]
        · have : ¬ idx < n + 1 := by omega
          simp [List.countP_cons, h, h2, this]

/-- A one-hot vector whose hot index is in range has exactly one entry
equal to 1. -/
lemma countOne_oneHot (len idx : Nat) (h : idx < len) :
    (oneHot len idx).countP (fun x => decide (x = 1)) = 1 := by
  rw [oneHot, List.countP_map]
  have : ((fun x => decide (x = (1 : ℚ))) ∘ fun j => if j = idx then (1 : ℚ) else 0)
      = fun j => decide (j = idx) := by
    funext j
    by_cases hj : j = idx <;> simp [hj]
  rw [this, countP_range_eq, if_pos h]

/-- A successful `Except` bind factors through a successful first step. -/
lemma exceptBind_ok {ε α β : Type _} {x : Except ε α} {f : α → Except ε β} {b : β}
    (h : (x >>= f) = .ok b) : ∃ a, x = .ok a ∧ f a = .ok b := by
  cases x with
  | ok a => exact ⟨a, rfl, h⟩
  | error e => simp [Bind.bind, Except.bind] at h

/-- A successful per-column encoding has the column's fixed width,
whatever the raw value was. -/
lemma encodeValue_ok_length {name : String} {fc : FittedColumn} {v : Value} {e : List ℚ}
    (h : encodeValue name fc v = .ok e) : e.length = colWidth fc := by
  cases fc with
  | categorical vocab oov =>
      simp only [encodeValue] at h
      cases hm : idxOf v vocab with
      | some i => rw [hm] at h; simp at h; subst h; simp [length_oneHot, colWidth]
      | none =>
          rw [hm] at h
          by_cases ho : oov = 0
          · simp [ho] at h
          · simp [ho] at h; subst h; simp [length_oneHot, colWidth]
  | normalized mean variance =>
      simp only [encodeValue] at h
      cases hm : numValue v with
      | some q => rw [hm] at h; simp at h; subst h; simp [colWidth]
      | none => rw [hm] at h; simp at h
  | discretized bs =>
      simp only [encodeValue] at h
      cases hm : numValue v with
      | some q => rw [hm] at h; simp at h; subst h; simp [length_oneHot, colWidth]
      | none => rw [hm] at h; simp at h

/-- A successful encoding of all fitted columns has the summed per-column
width, whatever the row was. -/
lemma encodeColumns_ok_length {row : Row} {cols : List (String × FittedColumn)} {v : List ℚ}
    (h : encodeColumns row cols = .ok v) :
    v.length = (cols.map (fun nc => colWidth nc.2)).sum := by
  induction cols generalizing v with
  | nil => simp [encodeColumns] at h; subst h; simp
  | cons nc rest ih =>
      obtain ⟨name, fc⟩ := nc
      simp only [encodeColumns] at h
      cases hm : rowLookup row name with
      | none => rw [hm] at h; simp at h
      | some w =>
          rw [hm] at h
          obtain ⟨e, he, h2⟩ := exceptBind_ok h
          obtain ⟨es, hes, h3⟩ := exceptBind_ok h2
          simp [pure, Except.pure] at h3
          subst h3
          simp [List.map_cons, List.sum_cons, encodeValue_ok_length he, ih hes]

/-- A successful cross encoding has length equal to the crossing
dimension, whatever the row was. -/
lemma encodeCross_ok_length {row : Row} {cs : CrossSpec} {e : List ℚ}
    (h : encodeCross row cs = .ok e) : e.length = cs.crossing_dim := by
  simp only [encodeCross] at h
  obtain ⟨vals, hv, h2⟩ := exceptBind_ok h
  simp [pure, Except.pure] at h2
  subst h2
  simp [length_oneHot]

/-- A successful encoding of all crosses has the summed crossing
dimensions, whatever the row was. -/
lemma encodeCrosses_ok_length {row : Row} {crosses : List CrossSpec} {v : List ℚ}
    (h : encodeCrosses row crosses = .ok v) :
    v.length = (crosses.map (fun cs => cs.crossing_dim)).sum := by
  induction crosses generalizing v with
  | nil => simp [encodeCrosses] at h; subst h; simp
  | cons cs rest ih =>
      simp only [encodeCrosses] at h
      obtain ⟨e, he, h2⟩ := exceptBind_ok h
      obtain ⟨es, hes, h3⟩ := exceptBind_ok h2
      simp [pure, Except.pure] at h3
      subst h3
      simp [List.map_cons, List.sum_cons, encodeCross_ok_length he, ih hes]

/-- Claim C1: for every adapted feature-space configuration, applying it
to any valid row yields a feature vector of one fixed length,
`featureVectorLength` — a function of the fitted state alone, so the
length is the same for every valid row (and every row of every batch) and
is fixed once adaptation completes. -/
theorem applyRow_length_const (fs : FittedSpace) (row : Row) (v : List ℚ)
    (h : applyRow fs row = .ok v) : v.length = featureVectorLength fs := by
  simp only [applyRow] at h
  obtain ⟨a, ha, h2⟩ := exceptBind_ok h
  obtain ⟨b, hb, h3⟩ := exceptBind_ok h2
  simp [pure, Except.pure] at h3
  subst h3
  simp [featureVectorLength, encodeColumns_ok_length ha, encodeCrosses_ok_length hb]

/-- Witness for C1: a concrete fitted space and row on which application
succeeds and the output length is the fixed vector length. -/
theorem applyRow_length_const_w :
    (([0, 1, 0, 0, 1, 0] : List ℚ)).length = featureVectorLength witnessFitted :=
  applyRow_length_const witnessFitted [("sex", .intV 1)] [0, 1, 0, 0, 1, 0] (by rfl)

/-- A value absent from a vocabulary has no index in it. -/
lemma idxOf_eq_none {v : Value} {vocab : List Value} (h : v ∉ vocab) :
    idxOf v vocab = none := by
  induction vocab with
  | nil => rfl
  | cons w ws ih =>
      simp only [idxOf]
      rw [List.mem_cons, not_or] at h
      rw [if_neg (fun he => h.1 he.symm), ih h.2]
      rfl

/-- Claim C2: a categorical column with zero oov slots fails on an unseen
value with the distinct "unknown category" error; the same column with one
oov slot maps that unseen value to the single designated oov slot (slot 0)
instead of failing; and a row missing a declared column fails with the
"missing field" error. -/
theorem categorical_oov_and_missing (name : String) (vocab : List Value) (v : Value)
    (row : Row) (h : v ∉ vocab) (hm : rowLookup row name = none) :
    encodeValue name (.categorical vocab 0) v = .error (.unknownCategory name v) ∧
    encodeValue name (.categorical vocab 1) v = .ok (oneHot (vocab.length + 1) 0) ∧
    applyRow ⟨[(name, .categorical vocab 0)], []⟩ row = .error (.missingField name) := by
  refine ⟨?_, ?_, ?_⟩
  · simp [encodeValue, idxOf_eq_none h]
  · simp [encodeValue, idxOf_eq_none h, Nat.mod_one]
  · simp [applyRow, encodeColumns, hm, Bind.bind, Except.bind]

/-- Witness for C2: the `sex` column with vocabulary `{0, 1}` and the
unseen value 5, and an empty row missing the column. -/
theorem categorical_oov_and_missing_w :
    encodeValue "sex" (.categorical [.intV 0, .intV 1] 0) (.intV 5)
        = .error (.unknownCategory "sex" (.intV 5)) ∧
    encodeValue "sex" (.categorical [.intV 0, .intV 1] 1) (.intV 5)
        = .ok (oneHot 3 0) ∧
    applyRow ⟨[("sex", .categorical [.intV 0, .intV 1] 0)], []⟩ []
        = .error (.missingField "sex") :=
  categorical_oov_and_missing "sex" [.intV 0, .intV 1] (.intV 5) []
    (by decide) rfl

/-- Claim C3: the lifecycle is Unconfigured → Configured (declare) →
Adapted (adapt) → apply any number of times: in every state that is not
Adapted — in particular every configured but not-yet-adapted one — apply
on any row fails with the configuration-state error, so a row can be
encoded only after adaptation has completed its pass. -/
theorem apply_requires_adaptation (s : FSState) (row : Row)
    (h : ∀ fs, s ≠ FSState.Adapted fs) :
    applyStep s row = .error .notAdapted := by
  cases s with
  | Unconfigured => rfl
  | Configured cfg => rfl
  | Adapted fs => exact absurd rfl (h fs)

/-- Witness for C3: apply on a configured-but-unadapted feature space
fails with the configuration-state error. -/
theorem apply_requires_adaptation_w :
    applyStep (.Configured { features := [], crosses := [] }) [] = .error .notAdapted :=
  apply_requires_adaptation _ [] (fun fs h => by simp at h)

/-- Claim C4: a discretized column adapted with `k` bins has exactly
`k - 1` fitted cut points; every numeric sample encodes (without failing)
to a one-hot vector over the `k` bins with exactly one active position;
and out-of-range values clamp to the nearest edge bin (below every
boundary falls in bin 0, above every boundary in the last bin). -/
theorem discretized_bins_clamp (name : String) (k : Nat) (vals : List Value)
    (bs : List ℚ) (q : ℚ)
    (h : adaptColumn name (.float_discretized k) vals = .ok (.discretized bs)) :
    bs.length = k - 1 ∧
    encodeValue name (.discretized bs) (.floatV q)
        = .ok (oneHot (bs.length + 1) (binIndex bs q)) ∧
    (oneHot (bs.length + 1) (binIndex bs q)).countP (fun x => decide (x = 1)) = 1 ∧
    binIndex bs q ≤ bs.length ∧
    ((∀ b ∈ bs, q < b) → binIndex bs q = 0) ∧
    ((∀ b ∈ bs, b ≤ q) → binIndex bs q = bs.length) := by
  have hlen : bs.length = k - 1 := by
    simp only [adaptColumn] at h
    cases hm : vals.mapM numValue with
    | some qs =>
        simp only [hm, Except.ok.injEq, FittedColumn.discretized.injEq] at h
        rw [← h]
        simp
    | none => rw [hm] at h; simp at h
  have hle : binIndex bs q ≤ bs.length := by
    unfold binIndex
    exact List.countP_le_length _
  refine ⟨hlen, by simp [encodeValue, numValue, binIndex], ?_, hle, ?_, ?_⟩
  · exact countOne_oneHot _ _ (Nat.lt_succ_of_le hle)
  · intro hb
    simp only [binIndex, List.countP_eq_zero]
    intro b hbm
    simpa using (hb b hbm).not_le
  · intro hb
    simp only [binIndex, List.countP_eq_length]
    intro b hbm
    simpa using hb b hbm

/-- Witness for C4: two bins fitted on the values `{2, 4}` give one cut
point, and the out-of-range value 7 clamps into the last bin. -/
theorem discretized_bins_clamp_w :
    (([3] : List ℚ)).length = 2 - 1 ∧
    encodeValue "age" (.discretized [3]) (.floatV 7)
        = .ok (oneHot 2 (binIndex [3] 7)) ∧
    (oneHot ((1 : Nat) + 1) (binIndex [3] 7)).countP (fun x => decide (x = 1)) = 1 ∧
    binIndex [3] 7 ≤ 1 ∧
    ((∀ b ∈ ([3] : List ℚ), (7 : ℚ) < b) → binIndex [3] 7 = 0) ∧
    ((∀ b ∈ ([3] : List ℚ), b ≤ (7 : ℚ)) → binIndex [3] 7 = 1) :=
  discretized_bins_clamp "age" 2 [.floatV 2, .floatV 4] [3] 7
    (by norm_num [adaptColumn, List.mapM, List.mapM.loop, numValue, minQ, maxQ,
      List.range_succ])

/-- Claim C5: a cross with positive hashing dimension `crossing_dim`,
applied to any row that binds its constituent columns, emits a one-hot
vector of length exactly `crossing_dim` with exactly one active position,
obtained by hashing the constituent values into `[0, crossing_dim)` —
regardless of how many distinct raw value combinations exist. -/
theorem cross_one_hot (row : Row) (names : List String) (dim : Nat) (vals : List Value)
    (hdim : 0 < dim) (hg : gatherValues row names = .ok vals) :
    encodeCross row ⟨names, dim⟩ = .ok (oneHot dim (combineHash vals % dim)) ∧
    (oneHot dim (combineHash vals % dim)).length = dim ∧
    combineHash vals % dim < dim ∧
    (oneHot dim (combineHash vals % dim)).countP (fun x => decide (x = 1)) = 1 := by
  refine ⟨?_, length_oneHot _ _, Nat.mod_lt _ hdim,
    countOne_oneHot _ _ (Nat.mod_lt _ hdim)⟩
  simp [encodeCross, hg, Bind.bind, Except.bind, pure, Except.pure]

/-- Witness for C5: the notebook's `("thal", "ca")` cross with
`crossing_dim = 16` on one concrete row. -/
theorem cross_one_hot_w :
    encodeCross [("thal", .strV "fixed"), ("ca", .intV 0)] ⟨["thal", "ca"], 16⟩
        = .ok (oneHot 16 (combineHash [.strV "fixed", .intV 0] % 16)) ∧
    (oneHot 16 (combineHash [.strV "fixed", .intV 0] % 16)).length = 16 ∧
    combineHash [.strV "fixed", .intV 0] % 16 < 16 ∧
    (oneHot 16 (combineHash [.strV "fixed", .intV 0] % 16)).countP
        (fun x => decide (x = 1)) = 1 :=
  cross_one_hot [("thal", .strV "fixed"), ("ca", .intV 0)] ["thal", "ca"] 16
    [.strV "fixed", .intV 0] (by decide) rfl

/-- Claim C6: the concrete scenario — adapting
`{"sex": CategoricalInteger(oov=0), "age": NormalizedFloat}` on
`[{"sex": 1, "age": 60}, {"sex": 0, "age": 40}]` fits the vocabulary
`{0, 1}` for `sex` (size 2, no oov slot) and mean 50, variance 100 for
`age`; applying `{"sex": 1, "age": 60}` yields the one-hot `[0, 1]`
concatenated with `(60 - 50) / sqrt(100 + epsilon) = 1`. -/
theorem scenario_adapt_and_apply :
    adapt scenarioConfig scenarioRows = .ok scenarioFitted ∧
    applyRow scenarioFitted [("sex", .intV 1), ("age", .intV 60)] = .ok [0, 1, 1] := by
  constructor
  · simp [adapt, scenarioConfig, scenarioRows, scenarioFitted, validateConfig, columnValues,
      adaptColumn, sortedDedup, insertVal, valueLE, rowLookup, numValue, List.mapM,
      List.mapM.loop, Except.instMonad, Except.bind, Except.map, Except.pure, bind, pure,
      Functor.map]
    norm_num
  · simp [applyRow, scenarioFitted, encodeColumns, encodeCrosses, encodeValue, rowLookup,
      idxOf, oneHot, numValue, sqrtQ, epsilon, List.range_succ, Except.instMonad,
      Except.bind, Except.map, Except.pure, bind, pure, Functor.map]
    norm_num

/-- Claim C7: application is a pure, deterministic function of the fitted
statistics and the raw row and never mutates them: batched application
with the lifecycle state threaded through the rows leaves the state
exactly as it was, and every row's result equals the stateless single-row
application against the original state — so re-running apply on the same
row (any number of times) yields identical vectors. -/
theorem apply_pure_never_mutates (s : FSState) (rows : List Row) :
    (applyBatchMut s rows).2 = s ∧
    (applyBatchMut s rows).1 = rows.map (applyStep s) := by
  induction rows with
  | nil => exact ⟨rfl, rfl⟩
  | cons r rs ih => simp [applyBatchMut, applyMut, ih.1, ih.2]

/-- Claim C8: the training-time path (mapping the fitted feature space
over a pre-batched labeled dataset) and the inference-time path (encoding
one raw dict of values) agree on every element: element `i` of the mapped
dataset is exactly the single-row encoding of row `i` paired with its
label, so batched application has identical per-row semantics to
single-row application. -/
theorem training_inference_paths_agree (fs : FittedSpace) (ds : List (Row × ℚ)) (i : Nat) :
    (trainingPathEncode fs ds)[i]? =
      (ds[i]?).map (fun xy => (inferencePathEncode fs xy.1, xy.2)) := by
  simp [trainingPathEncode, inferencePathEncode]

end FeatureSpaceModel

namespace SplitModel

/-- Fetching rows at indices that are all in range yields one row per
index. -/
lemma length_rowsAt (df : List α) (idxs : List Nat) (h : ∀ i ∈ idxs, i < df.length) :
    (rowsAt df idxs).length = idxs.length := by
  induction idxs with
  | nil => rfl
  | cons i is ih =>
      have hi : i < df.length := h i (List.mem_cons_self i is)
      have hrest : ∀ j ∈ is, j < df.length := fun j hj => h j (List.mem_cons_of_mem i hj)
      simp [rowsAt, List.filterMap_cons, List.get?_eq_getElem?,
        List.getElem?_eq_getElem hi] at ih ⊢
      exact ih hrest

set_option maxRecDepth 40000 in
set_option maxHeartbeats 1000000 in
/-- Claim C9: with seed 1337, the train/validation split of any 303-row
dataframe partitions it — the validation sample has 61 rows, the training
remainder 242, every one of the 303 row indices belongs to exactly one of
the two index sets, and no index is duplicated; the selection is a pure
function of the seed, so the split is deterministic across runs. -/
theorem train_val_split_partition (df : List α) (h : df.length = 303) :
    (trainValSplit 1337 df).2.length = 61 ∧
    (trainValSplit 1337 df).1.length = 242 ∧
    (∀ i, i < 303 → ((i ∈ (splitIndices 1337 303).1) ↔ (i ∉ (splitIndices 1337 303).2))) ∧
    ((splitIndices 1337 303).1 ++ (splitIndices 1337 303).2).Nodup := by
  have hval : ∀ i ∈ (splitIndices 1337 303).1, i < 303 := by decide
  have htrain : ∀ i ∈ (splitIndices 1337 303).2, i < 303 := by decide
  refine ⟨?_, ?_, by decide, by decide⟩
  · rw [trainValSplit]
    simp only [h]
    rw [length_rowsAt df _ (fun i hi => h ▸ hval i hi)]
    decide
  · rw [trainValSplit]
    simp only [h]
    rw [length_rowsAt df _ (fun i hi => h ▸ htrain i hi)]
    decide

/-- Witness for C9: the split of a concrete 303-row frame. -/
theorem train_val_split_partition_w :
    (trainValSplit 1337 (List.range 303)).2.length = 61 ∧
    (trainValSplit 1337 (List.range 303)).1.length = 242 ∧
    (∀ i, i < 303 → ((i ∈ (splitIndices 1337 303).1) ↔ (i ∉ (splitIndices 1337 303).2))) ∧
    ((splitIndices 1337 303).1 ++ (splitIndices 1337 303).2).Nodup :=
  train_val_split_partition (List.range 303) (by simp)

end SplitModel

namespace DatasetModel

open FeatureSpaceModel

/-- Looking up a column after removing it finds nothing. -/
lemma rowLookup_rowRemove (name : String) (r : Row) :
    rowLookup (rowRemove name r) name = none := by
  induction r with
  | nil => rfl
  | cons kv rest ih =>
      obtain ⟨k, v⟩ := kv
      by_cases hk : k = name
      · simpa [rowRemove, hk] using ih
      · simp [rowRemove, hk, rowLookup, ih]

/-- Claim C10: `dataframe_to_dataset` leaves its caller's dataframe
unchanged (it pops the `"target"` column off a copy), and every element of
the dataset it returns pairs a feature dictionary without the `"target"`
key with that row's label. -/
theorem dataframe_to_dataset_frame_unchanged (seed : Nat) (s : Store) (i : Nat)
    (h : i < s.frames.length) :
    (dataframe_to_dataset seed s i).1.frames.getD i [] = s.frames.getD i [] ∧
    (∀ e ∈ (dataframe_to_dataset seed s i).2,
      rowLookup e.1 "target" = none ∧
      ∃ r0 ∈ s.frames.getD i [], e.1 = rowRemove "target" r0 ∧
        e.2 = rowLookup r0 "target") := by
  constructor
  · have hne : s.frames.length ≠ i := Nat.ne_of_gt h
    simp [dataframe_to_dataset, copyFrame, popTarget, List.getD_eq_getElem?_getD,
      List.getElem?_set_ne hne, List.getElem?_append_left h]
  · intro e he
    have hfeats : ((dataframe_to_dataset seed s i).2 : List (Row × Option Value))
        = shuffleModel seed
          (((s.frames.getD i []).map (rowRemove "target")).zip
            ((s.frames.getD i []).map (fun r => rowLookup r "target"))) := by
      have hlen : s.frames.length < (s.frames ++ [s.frames.getD i []]).length := by
        simp
      simp [dataframe_to_dataset, copyFrame, popTarget, List.getD_eq_getElem?_getD,
        List.getElem?_set_self hlen, List.getElem?_append_right (Nat.le_refl _)]
    rw [hfeats, shuffleModel, List.mem_rotate, List.zip_map'] at he
    obtain ⟨r0, hr0, hre⟩ := List.mem_map.mp he
    refine ⟨?_, r0, hr0, ?_, ?_⟩
    · rw [← hre]
      exact rowLookup_rowRemove "target" r0
    · rw [← hre]
    · rw [← hre]

/-- Witness for C10: a one-frame store holding a one-row frame with a
`"target"` column and one feature column. -/
theorem dataframe_to_dataset_frame_unchanged_w :
    (dataframe_to_dataset 0 ⟨[[[("target", .intV 1), ("sex", .intV 0)]]]⟩ 0).1.frames.getD 0 []
      = (⟨[[[("target", .intV 1), ("sex", .intV 0)]]]⟩ : Store).frames.getD 0 [] ∧
    (∀ e ∈ (dataframe_to_dataset 0 ⟨[[[("target", .intV 1), ("sex", .intV 0)]]]⟩ 0).2,
      rowLookup e.1 "target" = none ∧
      ∃ r0 ∈ (⟨[[[("target", .intV 1), ("sex", .intV 0)]]]⟩ : Store).frames.getD 0 [],
        e.1 = rowRemove "target" r0 ∧ e.2 = rowLookup r0 "target") :=
  dataframe_to_dataset_frame_unchanged 0 _ 0 (by simp)

end DatasetModel
